import Mathlib

/-!
Verification development for the `jzazbz` color package (JzAzBz color math
and multi-stop gradients) of this repository.

Modelling conventions, chosen once and used throughout:

* Go `float64` arithmetic is modelled as exact arithmetic in `ℚ`.
  Additions, multiplications and divisions of the source are translated
  literally; decimal literals of the source are the corresponding exact
  rationals.  IEEE rounding, `-0.0` and NaN payloads are outside this model;
  environments where a claim turns on bit-exact `float64` behaviour are
  recorded as such in the results rather than decided here.
* `math.Pow` is not exactly computable; it is abstracted as a parameter
  `fpow : ℚ → ℚ → ℚ` that every definition of the numeric pipeline takes.
  Theorems about the conversion pipeline hold for every `fpow`, and
  counterexamples instantiate it with a concrete function (`powOne`).
* Code that can panic at runtime (indexing a string or slice out of range)
  is modelled with `Option`: `none` is a panic, `some` a normal return.
* `float64` division by zero, which in Go yields `±Inf`, is modelled by the
  small type `GoFloat` (a rational, `+Inf`, `-Inf` or `NaN`) exactly where
  the source can produce it (`ColorAt`'s `position/max`).

Source: `src/jzazbz/jzazbz.go` (the current revision of the module; the
repository also carries an older near-duplicate revision, noted where the
two diverge).
-/

namespace Jzazbz

-- The abstracted `math.Pow`.
variable (fpow : ℚ → ℚ → ℚ)

/-- Concrete instantiation of the abstracted `math.Pow` used by witnesses and
counterexamples: the constant function `1`. -/
def powOne : ℚ → ℚ → ℚ := fun _ _ => 1

/-- `Color` (jzazbz.go lines 136-141): a color value in the JzAzBz color
space, three `float64` components modelled as rationals. -/
structure Color where
  j : ℚ
  a : ℚ
  b : ℚ
  deriving DecidableEq

instance : Inhabited Color := ⟨⟨0, 0, 0⟩⟩

/-- `black()` (jzazbz.go lines 42-44). -/
def black : Color := ⟨0, 0, 0⟩

/-- `lerp` (jzazbz.go lines 263-268): linear interpolation with an exact
short-circuit when the two endpoints coincide. -/
def lerp (a b f : ℚ) : ℚ :=
  if a = b then a else a * (1 - f) + b * f

/-- `Color.blend` (jzazbz.go lines 209-215): componentwise `lerp`. -/
def blend (c c2 : Color) (frac : ℚ) : Color :=
  ⟨lerp c.j c2.j frac, lerp c.a c2.a frac, lerp c.b c2.b frac⟩

/-- `hexByte` (jzazbz.go lines 217-227): value of one hex digit, `0` for any
non-hex byte. -/
def hexByte (c : Char) : ℕ :=
  if '0' ≤ c ∧ c ≤ '9' then c.toNat - '0'.toNat
  else if 'a' ≤ c ∧ c ≤ 'f' then c.toNat - 'a'.toNat + 10
  else if 'A' ≤ c ∧ c ≤ 'F' then c.toNat - 'A'.toNat + 10
  else 0

/-- `rgbStandardToLinear` (jzazbz.go lines 236-243). -/
def rgbStandardToLinear (s : ℚ) : ℚ :=
  if s ≤ 0.04045 then 0.07739938080495357 * s
  else fpow ((s + 0.055) * 0.9478672985781991) 2.4

/-- `pq` (jzazbz.go lines 245-249): the perceptual-quantizer forward gamma. -/
def pq (x : ℚ) : ℚ :=
  fpow ((0.8359375 + 18.8515625 * fpow (x * 1e-4) 0.1593017578125) /
        (1 + 18.6875 * fpow (x * 1e-4) 0.1593017578125)) 134.034375

/-- Body of `FromHex` (jzazbz.go lines 181-206) on the character list with a
leading `#` already stripped: wrong length yields black, otherwise the
sRGB → lRGB → XYZ → LMS-PQ → JzAzBz pipeline. -/
def fromHexChars (cs : List Char) : Color :=
  match cs with
  | [c0, c1, c2, c3, c4, c5] =>
    let r := rgbStandardToLinear fpow ((hexByte c0 * 16 + hexByte c1 : ℕ) / (255 : ℚ))
    let g := rgbStandardToLinear fpow ((hexByte c2 * 16 + hexByte c3 : ℕ) / (255 : ℚ))
    let b := rgbStandardToLinear fpow ((hexByte c4 * 16 + hexByte c5 : ℕ) / (255 : ℚ))
    let x := 0.4124564 * r + 0.3575761 * g + 0.1804375 * b
    let y := 0.2126729 * r + 0.7151522 * g + 0.0721750 * b
    let z := 0.0193339 * r + 0.1191920 * g + 0.9503041 * b
    let lP := pq fpow (0.674207838 * x + 0.382799340 * y - 0.047570458 * z)
    let mP := pq fpow (0.149284160 * x + 0.739628340 * y + 0.083327300 * z)
    let sP := pq fpow (0.070941080 * x + 0.174768000 * y + 0.670970020 * z)
    let iZ := 0.5 * (lP + mP)
    ⟨0.44 * iZ / (1 - 0.56 * iZ) - 1.6295499532821566e-11,
     3.524000 * lP - 4.066708 * mP + 0.542708 * sP,
     0.199076 * lP + 1.096799 * mP - 1.295875 * sP⟩
  | _ => black

/-- `FromHex` (jzazbz.go lines 177-207).  The source indexes `hexStr[0]`
before any length check, so the empty string panics: that is the `none`
case.  Otherwise an optional leading `#` is stripped and `fromHexChars`
runs. -/
def FromHex? (s : String) : Option Color :=
  match s.data with
  | [] => none
  | c :: cs => some (fromHexChars fpow (if c = '#' then cs else c :: cs))

/-- `pqInv` (jzazbz.go lines 251-261): the perceptual-quantizer inverse
gamma.  The source's final `IsNaN` clamp cannot fire in the rational model
(no NaN exists here) and is therefore absent. -/
def pqInv (x : ℚ) : ℚ :=
  1e4 * fpow ((0.8359375 - fpow x 7.460772656268214e-03) /
              (18.6875 * fpow x 7.460772656268214e-03 - 18.8515625))
             6.277394636015326

/-- `rgbLinearToStandard` (jzazbz.go lines 229-234). -/
def rgbLinearToStandard (l : ℚ) : ℚ :=
  if l ≤ 0.0031308 then 12.92 * l
  else 1.055 * fpow l 0.4166666666666667 - 0.055

/-- Truncation toward zero, the `uint32(f)` conversion of Go applied to a
`float64` (jzazbz.go lines 151-153); kept in `ℤ` (the conversion is
implementation-specific outside `[0, 2^32)`, which no claim touches). -/
def truncQ (q : ℚ) : ℤ :=
  if q < 0 then -⌊-q⌋ else ⌊q⌋

/-- `math.Round`: round half away from zero, as an integer. -/
def roundZ (q : ℚ) : ℤ :=
  if q < 0 then -⌊-q + 1/2⌋ else ⌊q + 1/2⌋

/-- The three linear-RGB values computed inside `Color.sRGB` (jzazbz.go
lines 157-168 plus the three matrix rows fed to `rgbLinearToStandard` on
lines 169-171): JzAzBz → L'M'S' → CIE XYZ → linear RGB. -/
def linearRGB (c : Color) : ℚ × ℚ × ℚ :=
  let jz := c.j + 1.6295499532821566e-11
  let iz := jz / (0.44 + 0.56 * jz)
  let l := pqInv fpow (iz + 1.386050432715393e-1 * c.a + 5.804731615611869e-2 * c.b)
  let m := pqInv fpow (iz - 1.386050432715393e-1 * c.a - 5.804731615611891e-2 * c.b)
  let s := pqInv fpow (iz - 9.601924202631895e-2 * c.a - 8.118918960560390e-1 * c.b)
  let x := 1.661373055774069e+00 * l - 9.145230923250668e-01 * m + 2.313620767186147e-01 * s
  let y := -3.250758740427037e-01 * l + 1.571847038366936e+00 * m - 2.182538318672940e-01 * s
  let z := -9.098281098284756e-02 * l - 3.127282905230740e-01 * m + 1.522766561305260e+00 * s
  (3.2404542 * x - 1.5371385 * y - 0.4985314 * z,
   -0.9692660 * x + 1.8760108 * y + 0.0415560 * z,
   0.0556434 * x - 0.2040259 * y + 1.0572252 * z)

/-- `Color.sRGB` (jzazbz.go lines 157-173): each linear channel is
delinearized, scaled to `[0,255]` and rounded (`math.Round`). -/
def sRGBtriple (c : Color) : ℚ × ℚ × ℚ :=
  (((roundZ (255 * rgbLinearToStandard fpow (linearRGB fpow c).1) : ℤ) : ℚ),
   ((roundZ (255 * rgbLinearToStandard fpow (linearRGB fpow c).2.1) : ℤ) : ℚ),
   ((roundZ (255 * rgbLinearToStandard fpow (linearRGB fpow c).2.2) : ℤ) : ℚ))

/-- `Color.RGBA` (jzazbz.go lines 149-155): each `sRGB` result (already a
0-255 byte value) is multiplied by `65535.0` and converted with `uint32`;
alpha is the constant `0xFFFF`. -/
def RGBA (c : Color) : ℤ × ℤ × ℤ × ℤ :=
  (truncQ ((sRGBtriple fpow c).1 * 65535),
   truncQ ((sRGBtriple fpow c).2.1 * 65535),
   truncQ ((sRGBtriple fpow c).2.2 * 65535),
   0xFFFF)

/-- Modelled from the spec's words (§4.2 `RGBA()`), for comparison with the
source's `RGBA`: each **linear** (non-delinearized) channel scaled to
`[0,65535]` and rounded to nearest integer; alpha always `0xFFFF`. -/
def rgbaSpec (c : Color) : ℤ × ℤ × ℤ × ℤ :=
  (roundZ ((linearRGB fpow c).1 * 65535),
   roundZ ((linearRGB fpow c).2.1 * 65535),
   roundZ ((linearRGB fpow c).2.2 * 65535),
   0xFFFF)

/-- `stop` (jzazbz.go lines 130-134): a gradient stop. -/
structure Stop where
  Color : Color
  Offset : ℚ
  deriving DecidableEq

instance : Inhabited Stop := ⟨⟨black, 0⟩⟩

/-- `Gradient` (jzazbz.go lines 46-50). -/
structure Gradient where
  stops : List Stop
  deriving DecidableEq

/-- `BadGradient` (jzazbz.go line 40): the zero-stop sentinel. -/
def BadGradient : Gradient := ⟨[]⟩

/-- `sort.IsSorted(sort.Float64Slice(offsets))` (jzazbz.go line 69):
adjacent-pairs non-decreasing check (the NaN tie-break of
`Float64Slice.Less` is vacuous in the rational model). -/
def isSortedQ : List ℚ → Bool
  | [] => true
  | [_] => true
  | a :: b :: rest => decide (a ≤ b) && isSortedQ (b :: rest)

/-- The offset synthesis of `NewGradient` when no offsets are supplied
(jzazbz.go lines 72-78), translated operationally: start from
`make([]float64, n)` (all zeros), write `1.0` at index `n-1`, then write
`i/n` at each interior index `i = 1 .. n-2` (the Go loop
`for i := 1; i < len(offsets)-1; i++`). -/
def synthOffsets (n : ℕ) : List ℚ :=
  (List.range' 1 (n - 2)).foldl
    (fun acc i => acc.set i ((i : ℚ) / (n : ℚ)))
    ((List.replicate n (0 : ℚ)).set (n - 1) 1)

/-- The `FromHex` calls of `NewGradient`'s stop-building loop (jzazbz.go
lines 82-87), in order; a panic in any call is a panic of the whole
construction. -/
def fromHexList : List String → Option (List Color)
  | [] => some []
  | s :: t =>
    match FromHex? fpow s with
    | none => none
    | some c =>
      match fromHexList t with
      | none => none
      | some cs => some (c :: cs)

/-- `NewGradient` (jzazbz.go lines 60-89).  Validation mirrors the source's
`switch` with `fallthrough`: non-empty offsets that mismatch in length or
are unsorted yield `BadGradient`.  The stop-building loop calls `FromHex`,
which panics on an empty stop string; `none` models that panic. -/
def NewGradient? (stops : List String) (offsets : List ℚ) : Option Gradient :=
  if stops.length = 0 then some BadGradient
  else if 0 < offsets.length ∧
          (offsets.length ≠ stops.length ∨ isSortedQ offsets = false) then
    some BadGradient
  else
    let offs := if offsets.length = 0 then synthOffsets stops.length else offsets
    match fromHexList fpow stops with
    | none => none
    | some cols => some ⟨List.zipWith Stop.mk cols offs⟩

/-- `Gradient.Color` (jzazbz.go lines 91-96): the guard `len(g.stops) > idx`
lets any negative index through to `g.stops[idx]`, which panics (`none`);
an index at or beyond the length returns black. -/
def Gradient.ColorIdx? (g : Gradient) (idx : ℤ) : Option Color :=
  if idx < (g.stops.length : ℤ) then
    if 0 ≤ idx then some ((g.stops.getD idx.toNat default).Color) else none
  else some black

/-- A Go `float64` as produced by `float64(pos) / float64(max)`: a finite
value (exact in the rational model), an infinity, or NaN. -/
inductive GoFloat where
  | fin (q : ℚ)
  | pinf
  | ninf
  | nan
  deriving DecidableEq

/-- `float64(pos) / float64(max)` (jzazbz.go line 112), with the IEEE
special cases for a zero divisor. -/
def divF (pos mx : ℤ) : GoFloat :=
  if mx = 0 then
    if 0 < pos then .pinf else if pos < 0 then .ninf else .nan
  else .fin ((pos : ℚ) / (mx : ℚ))

/-- The comparison `f < offset` of the scan loop (jzazbz.go line 115) under
IEEE semantics: `+Inf < x` and `NaN < x` are false, `-Inf < x` is true. -/
def fltF : GoFloat → ℚ → Bool
  | .fin q, o => decide (q < o)
  | .pinf, _ => false
  | .ninf, _ => true
  | .nan, _ => false

/-- `Gradient.ColorAt` (jzazbz.go lines 98-128).  The scan loop is
`List.findIdx` (which, like the Go loop, yields the length when no offset
exceeds `f`).  The final branch indexes `stops[s-1]` and `stops[s]` with
`0 < s < len` established by the preceding `switch`; the `GoFloat` there is
necessarily finite (an infinite or NaN `f` lands the scan on an end), and
the dead `none` arm records that no other case exists. -/
def ColorAt? (g : Gradient) (pos mx : ℤ) : Option Color :=
  match g.stops with
  | [] => some black
  | [s0] => some s0.Color
  | s0 :: s1 :: rest =>
    let stops := s0 :: s1 :: rest
    if pos = 0 then some s0.Color
    else if pos = mx then some stops.getLastI.Color
    else
      let f := divF pos mx
      let s := stops.findIdx (fun st => fltF f st.Offset)
      if s = 0 then some s0.Color
      else if s = stops.length then some stops.getLastI.Color
      else
        match f with
        | .fin q =>
          let o1 := (stops.getD (s - 1) default).Offset
          let o2 := (stops.getD s default).Offset
          some (blend (stops.getD (s - 1) default).Color
                      (stops.getD s default).Color ((q - o1) / (o2 - o1)))
        | _ => none

/-- Modelled from the spec's words (§4.4 `colorAt`, the `Otherwise` case),
for comparison with the source's `ColorAt`: `f = position/max`; the first
stop whose offset strictly exceeds `f` is the upper bracket; `s = 0` or no
such stop clamps to the nearest end; otherwise blend the bracketing pair at
`(f − offset.s-1.) / (offset.s. − offset.s-1.)`. -/
def colorAtSpec (g : Gradient) (pos mx : ℤ) : Color :=
  let f : ℚ := (pos : ℚ) / (mx : ℚ)
  let s := g.stops.findIdx (fun st => decide (f < st.Offset))
  if s = 0 then g.stops.headI.Color
  else if s = g.stops.length then g.stops.getLastI.Color
  else
    let o1 := (g.stops.getD (s - 1) default).Offset
    let o2 := (g.stops.getD s default).Offset
    blend (g.stops.getD (s - 1) default).Color
          (g.stops.getD s default).Color ((f - o1) / (o2 - o1))

/-- A concrete two-stop gradient used by witnesses. -/
def gex2 : Gradient := ⟨[⟨⟨0, 0, 0⟩, 0⟩, ⟨⟨1, 0, 0⟩, 1⟩]⟩

/-- A concrete one-stop gradient used by counterexamples and witnesses. -/
def gex1 : Gradient := ⟨[⟨⟨0, 0, 0⟩, 0⟩]⟩

/-- C8: for all Colors `c1` and `c2`, `blend(c1, c2, 0)` equals `c1` exactly
and `blend(c1, c2, 1)` equals `c2` exactly. -/
theorem claim_C8_blend_endpoints (c1 c2 : Color) :
    blend c1 c2 0 = c1 ∧ blend c1 c2 1 = c2 := by
  obtain ⟨j1, a1, b1⟩ := c1
  obtain ⟨j2, a2, b2⟩ := c2
  constructor <;>
    · simp only [blend, lerp, Color.mk.injEq]
      refine ⟨?_, ?_, ?_⟩ <;> split_ifs with h <;> first | exact h | ring

/-- C4: for every gradient with at least two stops and every `max > 0`,
`ColorAt(0, max)` is exactly the first stop's color and `ColorAt(max, max)`
is exactly the last stop's color, both returned before any interpolation. -/
theorem claim_C4_boundary_exact (g : Gradient) (mx : ℤ)
    (h2 : 2 ≤ g.stops.length) (hm : 0 < mx) :
    ColorAt? g 0 mx = some g.stops.headI.Color ∧
    ColorAt? g mx mx = some g.stops.getLastI.Color := by
  obtain ⟨stops⟩ := g
  match stops, h2 with
  | s0 :: s1 :: rest, _ =>
    constructor
    · simp [ColorAt?, List.headI]
    · simp [ColorAt?, hm.ne']

/-- Witness for C4 at the concrete gradient `gex2` and `max = 10`. -/
theorem claim_C4_boundary_exact_witness :
    ColorAt? gex2 0 10 = some gex2.stops.headI.Color ∧
    ColorAt? gex2 10 10 = some gex2.stops.getLastI.Color :=
  claim_C4_boundary_exact gex2 10 (by decide) (by decide)

/-- An infinite `f` compares `false` against every offset, so the scan runs
off the end, as in the Go loop. -/
theorem findIdx_fltF_pinf (l : List Stop) :
    l.findIdx (fun st => fltF .pinf st.Offset) = l.length := by
  induction l with
  | nil => rfl
  | cons a t ih => simp [List.findIdx_cons, fltF, ih]

/-- A NaN `f` compares `false` against every offset. -/
theorem findIdx_fltF_nan (l : List Stop) :
    l.findIdx (fun st => fltF .nan st.Offset) = l.length := by
  induction l with
  | nil => rfl
  | cons a t ih => simp [List.findIdx_cons, fltF, ih]

/-- A `-Inf` `f` compares `true` against the very first offset. -/
theorem findIdx_fltF_ninf (s0 : Stop) (t : List Stop) :
    (s0 :: t).findIdx (fun st => fltF .ninf st.Offset) = 0 := by
  simp [List.findIdx_cons, fltF]

/-- C10: `ColorAt` is total over its whole integer domain — it returns a
defined color for every gradient (the sentinel included) and all integers
`pos`, `max`, with no runtime failure; `pos = 0` takes precedence even when
`max = 0` and yields the first stop's color; and `max = 0` with `pos ≠ 0`
makes the division infinite, which clamps to an end stop (`+Inf` to the
last stop, `-Inf` to the first). -/
theorem claim_C10_colorAt_total (g : Gradient) (pos mx : ℤ) :
    (ColorAt? g pos mx).isSome = true ∧
    (g.stops ≠ [] → pos = 0 → ColorAt? g pos mx = some g.stops.headI.Color) ∧
    (mx = 0 → 0 < pos → 2 ≤ g.stops.length →
      ColorAt? g pos mx = some g.stops.getLastI.Color) ∧
    (mx = 0 → pos < 0 → 2 ≤ g.stops.length →
      ColorAt? g pos mx = some g.stops.headI.Color) := by
  obtain ⟨stops⟩ := g
  match stops with
  | [] => refine ⟨by simp [ColorAt?], by simp, by simp, by simp⟩
  | [s0] =>
    refine ⟨by simp [ColorAt?], fun _ _ => by simp [ColorAt?, List.headI],
      fun _ _ h => by simp at h, fun _ _ h => by simp at h⟩
  | s0 :: s1 :: rest =>
    by_cases h0 : pos = 0
    · subst h0
      refine ⟨by simp [ColorAt?], fun _ _ => by simp [ColorAt?, List.headI],
        fun _ hlt => absurd rfl hlt.ne, fun _ hlt => absurd rfl hlt.ne'⟩
    · by_cases hpm : pos = mx
      · subst hpm
        refine ⟨by simp [ColorAt?, h0], fun _ h => absurd h h0, ?_, ?_⟩
        · intro hz _ _
          exact absurd hz h0
        · intro hz _ _
          exact absurd hz h0
      · refine ⟨?_, fun _ h => absurd h h0, ?_, ?_⟩
        · simp only [ColorAt?, if_neg h0, if_neg hpm]
          cases hdv : divF pos mx with
          | fin q => split_ifs <;> simp
          | pinf => rw [findIdx_fltF_pinf]; simp
          | ninf => rw [findIdx_fltF_ninf]; simp
          | nan => rw [findIdx_fltF_nan]; simp
        · intro hz hp _
          subst hz
          have hdv : divF pos 0 = .pinf := by simp [divF, hp]
          simp only [ColorAt?, if_neg h0, if_neg hpm, hdv, findIdx_fltF_pinf]
          simp
        · intro hz hp _
          subst hz
          have hdv : divF pos 0 = .ninf := by
            simp [divF, hp, not_lt_of_gt hp]
          simp only [ColorAt?, if_neg h0, if_neg hpm, hdv, findIdx_fltF_ninf]
          simp [List.headI]

/-- Witness for C10: the three hypothetical clauses at the concrete gradient
`gex2`, with `(pos, max) = (0, 0)`, `(3, 0)` and `(-3, 0)`. -/
theorem claim_C10_colorAt_total_witness :
    ColorAt? gex2 0 0 = some gex2.stops.headI.Color ∧
    ColorAt? gex2 3 0 = some gex2.stops.getLastI.Color ∧
    ColorAt? gex2 (-3) 0 = some gex2.stops.headI.Color :=
  ⟨(claim_C10_colorAt_total gex2 0 0).2.1 (by decide) rfl,
   (claim_C10_colorAt_total gex2 3 0).2.2.1 rfl (by decide) (by decide),
   (claim_C10_colorAt_total gex2 (-3) 0).2.2.2 rfl (by decide) (by decide)⟩

/-- The gradient built from `["#ff0000", "#0000ff"]` with implicit offsets
under the concrete `powOne`, used by the C3 witness. -/
def gradRB : Gradient :=
  (NewGradient? powOne ["#ff0000", "#0000ff"] []).getD BadGradient

/-- `Option.map₂` applied to two present values. -/
theorem optMap2_some {α β γ : Type} (f : α → β → γ) (a : α) (b : β) :
    Option.map₂ f (some a) (some b) = some (f a b) := rfl

/-- C3: for ≥2 stops and `0 < position < max`, `ColorAt` computes
`f = position/max`, takes the first stop whose offset strictly exceeds `f`,
clamps at the ends, and otherwise blends the bracketing pair at the
normalized fraction — i.e. it agrees with the spec-side `colorAtSpec`; in
particular the two-stop gradient from `["#ff0000", "#0000ff"]` sampled at
`position 5 of 10` is the half-way blend of the two parsed colors. -/
theorem claim_C3_interior_blend (g : Gradient) (pos mx : ℤ) :
    (2 ≤ g.stops.length → 0 < pos → pos < mx →
      ColorAt? g pos mx = some (colorAtSpec g pos mx)) ∧
    (∀ gr, NewGradient? fpow ["#ff0000", "#0000ff"] [] = some gr →
      ColorAt? gr 5 10 =
        Option.map₂ (fun c1 c2 => blend c1 c2 (1/2))
          (FromHex? fpow "#ff0000") (FromHex? fpow "#0000ff")) := by
  constructor
  · intro h2 hp hpm
    obtain ⟨stops⟩ := g
    match stops, h2 with
    | s0 :: s1 :: rest, _ =>
      have hmx : mx ≠ 0 := by omega
      have hdv : divF pos mx = .fin ((pos : ℚ) / (mx : ℚ)) := by
        simp [divF, hmx]
      simp only [ColorAt?, colorAtSpec, if_neg hp.ne', if_neg hpm.ne, hdv, fltF]
      split_ifs <;> simp [List.headI]
  · intro gr hgr
    have hG : NewGradient? fpow ["#ff0000", "#0000ff"] [] =
        some ⟨[⟨fromHexChars fpow ['f', 'f', '0', '0', '0', '0'], 0⟩,
               ⟨fromHexChars fpow ['0', '0', '0', '0', 'f', 'f'], 1⟩]⟩ := rfl
    rw [hG] at hgr
    obtain rfl := (Option.some.inj hgr).symm
    have hR : FromHex? fpow "#ff0000" =
        some (fromHexChars fpow ['f', 'f', '0', '0', '0', '0']) := rfl
    have hB : FromHex? fpow "#0000ff" =
        some (fromHexChars fpow ['0', '0', '0', '0', 'f', 'f']) := rfl
    have hdv : divF 5 10 = .fin (1/2) := by
      simp only [divF, if_neg (by norm_num : (10 : ℤ) ≠ 0), GoFloat.fin.injEq]
      norm_num
    have hfr : ((1 : ℚ)/2 - 0) / (1 - 0) = 1/2 := by norm_num
    rw [hR, hB, optMap2_some]
    simp only [ColorAt?, hdv, List.findIdx_cons, fltF,
      decide_eq_true_eq, List.length_cons, List.length_nil, List.getD,
      List.getElem?_cons_zero, List.getElem?_cons_succ, Option.getD_some]
    rw [if_neg (by norm_num : ¬ ((5 : ℤ) = 0)),
        if_neg (by norm_num : ¬ ((5 : ℤ) = 10))]
    simp only [decide_eq_false (by norm_num : ¬ ((1 : ℚ)/2 < 0)),
               decide_eq_true (by norm_num : ((1 : ℚ)/2 < 1)),
               cond_false, cond_true, List.findIdx_nil,
               List.get?_cons_zero, List.get?_cons_succ, Option.getD_some]
    norm_num [hfr]

/-- Witness for C3: the interior-blend law at the concrete gradient `gex2`
with `(pos, max) = (5, 10)`, and the spec's red-to-blue scenario at the
concretely built `gradRB`. -/
theorem claim_C3_interior_blend_witness :
    ColorAt? gex2 5 10 = some (colorAtSpec gex2 5 10) ∧
    ColorAt? gradRB 5 10 =
      Option.map₂ (fun c1 c2 => blend c1 c2 (1/2))
        (FromHex? powOne "#ff0000") (FromHex? powOne "#0000ff") :=
  ⟨(claim_C3_interior_blend powOne gex2 5 10).1 (by decide) (by decide) (by decide),
   (claim_C3_interior_blend powOne gradRB 5 10).2 gradRB rfl⟩

/-- `getD` after a single in-place write, as the Go slice assignment
behaves. -/
theorem getD_set (l : List ℚ) (k j : ℕ) (v : ℚ) :
    (l.set k v).getD j 0 = if k = j ∧ k < l.length then v else l.getD j 0 := by
  by_cases hj : j < l.length
  · rw [List.getD_eq_getElem _ _ (by simpa using hj), List.getElem_set,
        List.getD_eq_getElem _ _ hj]
    by_cases hk : k = j
    · subst hk
      simp [hj]
    · simp [hk]
  · rw [List.getD_eq_default _ _ (by simpa using not_lt.mp hj),
        List.getD_eq_default _ _ (not_lt.mp hj)]
    have : ¬ (k = j ∧ k < l.length) := by
      rintro ⟨rfl, hk⟩
      exact hj hk
    simp [this]

/-- The write loop of the offset synthesis, seen through `getD`: an index is
`f`-valued if the loop visited it and keeps its prior value otherwise. -/
theorem foldl_set_getD (f : ℕ → ℚ) (is : List ℕ) (acc : List ℚ) (j : ℕ) :
    (is.foldl (fun a k => a.set k (f k)) acc).getD j 0 =
      if j ∈ is ∧ j < acc.length then f j else acc.getD j 0 := by
  induction is generalizing acc with
  | nil => simp
  | cons k t ih =>
    rw [List.foldl_cons, ih, getD_set]
    by_cases hk : k = j
    · subst hk
      by_cases hkl : k < acc.length
      · simp [hkl, List.length_set, List.mem_cons, ite_self]
      · have hno : ¬ (k = k ∧ k < acc.length) := fun h => hkl h.2
        have hno2 : ¬ (k ∈ k :: t ∧ k < acc.length) := fun h => hkl h.2
        have hno3 : ¬ (k ∈ t ∧ k < acc.length) := fun h => hkl h.2
        simp [List.length_set, hno, hno2, hno3]
    · have hno : ¬ (k = j ∧ k < acc.length) := fun h => hk h.1
      have hjk : ¬ (j = k) := fun h => hk h.symm
      have hmem : (j ∈ k :: t) = (j ∈ t) := by
        simp [List.mem_cons, hjk]
      simp [hno, hmem, List.length_set]

/-- The loop does not change the length. -/
theorem foldl_set_length (f : ℕ → ℚ) (is : List ℕ) (acc : List ℚ) :
    (is.foldl (fun a k => a.set k (f k)) acc).length = acc.length := by
  induction is generalizing acc with
  | nil => rfl
  | cons k t ih => simp [List.foldl_cons, ih]

theorem synthOffsets_length (n : ℕ) : (synthOffsets n).length = n := by
  simp [synthOffsets, foldl_set_length]

/-- Closed form of the synthesized offsets: index `n-1` holds `1` (also when
`n = 1`, where that index is `0`), index `0` holds `0` otherwise, and an
interior index `i` holds `i/n`. -/
theorem synthOffsets_getD (n i : ℕ) (hi : i < n) :
    (synthOffsets n).getD i 0 =
      if i = n - 1 then 1 else if i = 0 then 0 else (i : ℚ) / n := by
  unfold synthOffsets
  rw [show (fun (a : List ℚ) (k : ℕ) => a.set k ((k : ℚ) / (n : ℚ))) =
        (fun a k => a.set k ((fun m : ℕ => (m : ℚ) / (n : ℚ)) k)) from rfl,
      foldl_set_getD]
  have hbase : ((List.replicate n (0 : ℚ)).set (n - 1) 1).length = n := by simp
  by_cases hmem : i ∈ List.range' 1 (n - 2)
  · obtain ⟨h1, h2⟩ := List.mem_range'_1.mp hmem
    have hn1 : i ≠ n - 1 := by omega
    have h0 : i ≠ 0 := by omega
    simp [hmem, hbase, hi, hn1, h0]
  · have : i = 0 ∨ i = n - 1 := by
      rcases Nat.lt_or_ge i 1 with h | h
      · left; omega
      · right
        by_contra hne
        exact hmem (List.mem_range'_1.mpr (by omega))
    rcases this with rfl | rfl
    · rw [if_neg (by simp [hmem]), getD_set]
      by_cases h1 : n = 1
      · subst h1
        norm_num [List.getD_cons_zero]
      · have hno : ¬ (n - 1 = 0 ∧ n - 1 < (List.replicate n (0:ℚ)).length) := by
          simp only [List.length_replicate]
          omega
        rw [if_neg hno, if_neg (by omega : ¬ ((0 : ℕ) = n - 1)), if_pos rfl]
        match n, hi with
        | m + 1, _ => simp [List.replicate_succ]
    · rw [if_neg (by simp [hmem]), if_pos rfl, getD_set]
      have hlt : n - 1 < (List.replicate n (0:ℚ)).length := by
        simp only [List.length_replicate]
        omega
      rw [if_pos ⟨rfl, hlt⟩]

/-- A successful run of the stop-parsing loop yields one color per stop. -/
theorem fromHexList_length (stops : List String) :
    ∀ r : List Color, fromHexList fpow stops = some r → r.length = stops.length := by
  induction stops with
  | nil =>
    intro r h
    simp only [fromHexList, Option.some.injEq] at h
    simp [← h]
  | cons a t ih =>
    intro r h
    rw [fromHexList] at h
    cases hfa : FromHex? fpow a with
    | none => rw [hfa] at h; simp at h
    | some b =>
      rw [hfa] at h
      cases hmt : fromHexList fpow t with
      | none => rw [hmt] at h; simp at h
      | some bs =>
        rw [hmt] at h
        simp only [Option.some.injEq] at h
        simp [← h, ih bs hmt]

/-- The offset stored by the stop-building loop is the offset list's entry. -/
theorem zipWith_stop_getD_offset (cols : List Color) (offs : List ℚ) (i : ℕ)
    (hc : i < cols.length) (ho : i < offs.length) :
    ((List.zipWith Stop.mk cols offs).getD i default).Offset = offs.getD i 0 := by
  have hz : i < (List.zipWith Stop.mk cols offs).length := by
    rw [List.length_zipWith]
    omega
  rw [List.getD_eq_getElem _ _ hz, List.getElem_zipWith,
      List.getD_eq_getElem _ _ ho]

/-- The two-stop gradient from white and black hex stops under the concrete
`powOne`, used by the C6 witness. -/
def gradWB : Gradient :=
  (NewGradient? powOne ["#ffffff", "#000000"] []).getD BadGradient

/-- C6 counterexample: for the one-stop gradient with omitted offsets the
synthesized offset at index `0` is `1` (the `offsets[len-1] = 1.0` write
lands on index `0`), not `0` as the claim states for every non-empty stop
list. -/
theorem claim_C6_counterexample :
    ((NewGradient? powOne ["#ffffff"] []).getD BadGradient).stops.headI.Offset
      ≠ 0 := by
  rw [show ((NewGradient? powOne ["#ffffff"] []).getD
        BadGradient).stops.headI.Offset = 1 from rfl]
  norm_num

/-- C6 (amended to stop lists of length at least 2, which the
counterexample's one-stop case forces): with omitted offsets the
synthesized offsets satisfy `offset(0) = 0`, `offset(n-1) = 1` and
`offset(i) = i/n` for interior `i`. -/
theorem claim_C6_implicit_offsets (stops : List String) (g : Gradient)
    (hg : NewGradient? fpow stops [] = some g) (h2 : 2 ≤ stops.length) :
    ∀ i, i < g.stops.length →
      (g.stops.getD i default).Offset =
        if i = 0 then 0
        else if i = stops.length - 1 then 1
        else (i : ℚ) / (stops.length : ℚ) := by
  intro i hi
  have hne : ¬ (stops.length = 0) := by omega
  simp only [NewGradient?, List.length_nil, if_neg hne, lt_irrefl, false_and,
    if_false, if_true] at hg
  cases hm : fromHexList fpow stops with
  | none => rw [hm] at hg; simp at hg
  | some cols =>
    rw [hm] at hg
    simp only [Option.some.injEq] at hg
    obtain rfl := hg.symm
    have hcols : cols.length = stops.length := fromHexList_length _ _ _ hm
    have hso : (synthOffsets stops.length).length = stops.length :=
      synthOffsets_length _
    simp only at hi
    rw [List.length_zipWith, hcols, hso, min_self] at hi
    simp only
    rw [zipWith_stop_getD_offset _ _ _ (by omega) (by rw [hso]; exact hi),
        synthOffsets_getD _ _ hi]
    by_cases h0 : i = 0
    · subst h0
      rw [if_neg (by omega : ¬ ((0 : ℕ) = stops.length - 1)), if_pos rfl,
          if_pos rfl]
    · by_cases h1 : i = stops.length - 1
      · have hnz : ¬ (stops.length - 1 = 0) := by omega
        simp [h0, h1, hnz]
      · simp [h0, h1]

/-- Witness for C6 at the concrete two-stop gradient `gradWB`, index `1`. -/
theorem claim_C6_implicit_offsets_witness :
    (gradWB.stops.getD 1 default).Offset =
      if (1 : ℕ) = 0 then 0
      else if (1 : ℕ) = (["#ffffff", "#000000"] : List String).length - 1 then 1
      else ((1 : ℕ) : ℚ) / ((["#ffffff", "#000000"] : List String).length : ℚ) :=
  claim_C6_implicit_offsets powOne ["#ffffff", "#000000"] gradWB rfl
    (by decide) 1 (by decide)

/-- C1 (failing behaviour): `FromHex` does not return black for every
malformed input.  On the empty string it indexes `hexStr[0]` before any
length check and panics (`none`), and a six-character string with non-hex
characters is silently parsed with those characters as `0`, yielding a
non-black color — both contrary to the claim (and to the function's own
documentation). -/
theorem claim_C1_fromHex_malformed_not_black :
    FromHex? powOne "" = none ∧ FromHex? powOne "#ffzzzz" ≠ some black := by
  refine ⟨rfl, ?_⟩
  rw [show FromHex? powOne "#ffzzzz" =
      some (fromHexChars powOne ['f', 'f', 'z', 'z', 'z', 'z']) from rfl]
  have hf : hexByte 'f' = 15 := by decide
  have hz : hexByte 'z' = 0 := by decide
  simp only [fromHexChars, hf, hz, black, ne_eq, Option.some.injEq]
  norm_num [rgbStandardToLinear, pq, powOne, Color.mk.injEq]

/-- C5 (failing behaviour plus the claim's own examples): the validation
rules hold on the spec's three invalid-construction examples, but a
non-empty stop list containing an empty string makes `NewGradient` panic
through `FromHex` instead of returning a populated gradient. -/
theorem claim_C5_newGradient_validation :
    NewGradient? powOne [""] [] = none ∧
    NewGradient? powOne [] [] = some BadGradient ∧
    NewGradient? powOne ["#fff"] [0.2, 0.8] = some BadGradient ∧
    NewGradient? powOne ["#fff", "#fff"] [0.8, 0.2] = some BadGradient := by
  refine ⟨rfl, rfl, rfl, ?_⟩
  have hs : isSortedQ [0.8, 0.2] = false := by
    simp only [isSortedQ, decide_eq_false (by norm_num : ¬ ((0.8 : ℚ) ≤ 0.2)),
      Bool.false_and]
  simp only [NewGradient?]
  rw [if_neg (by decide), if_pos ⟨by decide, Or.inr hs⟩]

/-- C9 counterexample: a negative index passes the source's only guard
(`len(g.stops) > idx`) and panics on `g.stops[idx]` instead of returning
black. -/
theorem claim_C9_counterexample :
    Gradient.ColorIdx? gex1 (-1) = none := rfl

/-- C9 (amended: the silent-black degradation holds only upward — an index
at or beyond the stop count yields black and an in-range index yields that
stop's color, but a negative index panics). -/
theorem claim_C9_stop_lookup (g : Gradient) (idx : ℤ) :
    (0 ≤ idx → idx < (g.stops.length : ℤ) →
      Gradient.ColorIdx? g idx = some ((g.stops.getD idx.toNat default).Color)) ∧
    ((g.stops.length : ℤ) ≤ idx → Gradient.ColorIdx? g idx = some black) ∧
    (idx < 0 → Gradient.ColorIdx? g idx = none) := by
  unfold Gradient.ColorIdx?
  refine ⟨?_, ?_, ?_⟩
  · intro h0 hl
    rw [if_pos hl, if_pos h0]
  · intro h
    rw [if_neg (not_lt.mpr h)]
  · intro h
    rw [if_pos (by omega), if_neg (by omega)]

/-- Witness for C9 at the one-stop gradient `gex1` with indices `0`, `5`
and `-2`. -/
theorem claim_C9_stop_lookup_witness :
    Gradient.ColorIdx? gex1 0 =
      some ((gex1.stops.getD (0 : ℤ).toNat default).Color) ∧
    Gradient.ColorIdx? gex1 5 = some black ∧
    Gradient.ColorIdx? gex1 (-2) = none :=
  ⟨(claim_C9_stop_lookup gex1 0).1 (by decide) (by decide),
   (claim_C9_stop_lookup gex1 5).2.1 (by decide),
   (claim_C9_stop_lookup gex1 (-2)).2.2 (by decide)⟩

/-- `uint32` truncation of an integer-valued `float64` times `65535` is
exact. -/
theorem truncQ_intCast_mul (n : ℤ) : truncQ ((n : ℚ) * 65535) = n * 65535 := by
  have h : ((n : ℚ) * 65535) = ((n * 65535 : ℤ) : ℚ) := by push_cast; ring
  rw [h, truncQ]
  by_cases hneg : ((n * 65535 : ℤ) : ℚ) < 0
  · rw [if_pos hneg, ← Int.cast_neg, Int.floor_intCast]
    ring
  · rw [if_neg hneg, Int.floor_intCast]

/-- C2 counterexample: at a concrete color (black, with the abstracted
`math.Pow` instantiated by `powOne`) the red channel of `RGBA` differs from
the spec-side linear-channel scaling and exceeds `65535`: the source
multiplies the already-0-255-scaled gamma byte by `65535`. -/
theorem claim_C2_counterexample :
    (RGBA powOne ⟨0, 0, 0⟩).1 ≠ (rgbaSpec powOne ⟨0, 0, 0⟩).1 ∧
    65535 < (RGBA powOne ⟨0, 0, 0⟩).1 := by
  have hpq : ∀ x : ℚ, pqInv powOne x = 10000 := by
    intro x
    simp only [pqInv, powOne]
    norm_num
  have hlin : (linearRGB powOne ⟨0, 0, 0⟩).1 =
      515496719681727761487207 / 50000000000000000000 := by
    simp only [linearRGB, hpq]
    norm_num
  have hstd : rgbLinearToStandard powOne
      (515496719681727761487207 / 50000000000000000000) = 1 := by
    rw [rgbLinearToStandard, if_neg (by norm_num)]
    simp only [powOne]
    norm_num
  have hround255 : roundZ (255 * (1 : ℚ)) = 255 := by
    rw [roundZ, if_neg (by norm_num), Int.floor_eq_iff]
    constructor <;> norm_num
  have hcode1 : (RGBA powOne ⟨0, 0, 0⟩).1 = 16711425 := by
    simp only [RGBA, sRGBtriple, hlin, hstd, hround255]
    rw [truncQ_intCast_mul]
    norm_num
  have hspec1 : (rgbaSpec powOne ⟨0, 0, 0⟩).1 = 675661550 := by
    simp only [rgbaSpec, hlin]
    rw [roundZ, if_neg (by norm_num), Int.floor_eq_iff]
    constructor <;> norm_num
  rw [hcode1, hspec1]
  norm_num

/-- C2 (amended to what the source computes): `RGBA` returns, per channel,
the gamma-encoded 0-255 byte (`math.Round` of `255` times the delinearized
linear channel) multiplied exactly by `65535` — so channel values range up
to `255 · 65535 = 16711425`, not `65535` — and alpha is always `0xFFFF`. -/
theorem claim_C2_rgba_scaled_bytes (c : Color) :
    RGBA fpow c =
      (roundZ (255 * rgbLinearToStandard fpow (linearRGB fpow c).1) * 65535,
       roundZ (255 * rgbLinearToStandard fpow (linearRGB fpow c).2.1) * 65535,
       roundZ (255 * rgbLinearToStandard fpow (linearRGB fpow c).2.2) * 65535,
       0xFFFF) := by
  simp only [RGBA, sRGBtriple]
  rw [truncQ_intCast_mul, truncQ_intCast_mul, truncQ_intCast_mul]

end Jzazbz
